import Mathlib

/-!
Verification of the exoclaw gateway core against its specification.

The Rust sources are shallowly embedded: pure fragments become Lean
functions, mutation becomes explicit state passing, `u64`/`usize`
become `Nat`, `chrono` timestamps become `Nat` instants supplied by an
explicit clock, and `serde_json::Value` becomes the `JsonValue`
inductive below.  Each definition is translated from the named source
location.
-/

/-- Model of `serde_json::Value`: JSON values as used by the gateway.
Objects are association lists; `serde_json`'s map lookup returns the
value of the (unique) matching key, which `List.lookup` models. -/
inductive JsonValue where
  | null : JsonValue
  | bool (b : Bool) : JsonValue
  | num (n : Int) : JsonValue
  | str (s : String) : JsonValue
  | arr (elems : List JsonValue) : JsonValue
  | obj (fields : List (String × JsonValue)) : JsonValue

/-- `Value::get(key)` on a JSON object (`None` on other variants). -/
def JsonValue.get : JsonValue → String → Option JsonValue
  | .obj fields, key => fields.lookup key
  | _, _ => none

/-- `Value::as_str`. -/
def JsonValue.asStr : JsonValue → Option String
  | .str s => some s
  | _ => none

/-! ## Session router — `src/router/mod.rs` -/

/-- `Binding` (router/mod.rs:13-26): a partial routing pattern plus the
target agent. -/
structure Binding where
  agent_id : String
  channel : Option String
  account_id : Option String
  peer_id : Option String
  guild_id : Option String
  team_id : Option String
deriving DecidableEq

/-- `RouteResult` (router/mod.rs:32-36). -/
structure RouteResult where
  agent_id : String
  session_key : String
  matched_by : String
deriving DecidableEq

/-- `SessionRouter::resolve` (router/mod.rs:57-133), translated as a pure
function of the binding list and the five inputs.  Each Rust
`find_map` closure becomes a `List.findSome?`, the `or_else` chain
becomes `Option.orElse`, and `unwrap_or` becomes `Option.getD`.  The
session-counter update on the router's map is orthogonal to the
returned value and is not modelled. -/
def resolve (bindings : List Binding) (default_agent : String)
    (channel account : String) (peer guild team : Option String) : RouteResult :=
  let peerHit := bindings.findSome? fun b =>
    match b.peer_id, peer with
    | some bp, some p => if bp == p then some (b.agent_id, "binding.peer") else none
    | _, _ => none
  let guildHit := bindings.findSome? fun b =>
    match b.guild_id, guild with
    | some bg, some g => if bg == g then some (b.agent_id, "binding.guild") else none
    | _, _ => none
  let teamHit := bindings.findSome? fun b =>
    match b.team_id, team with
    | some bt, some t => if bt == t then some (b.agent_id, "binding.team") else none
    | _, _ => none
  let accountHit := bindings.findSome? fun b =>
    if b.account_id == some account && b.peer_id.isNone && b.guild_id.isNone then
      some (b.agent_id, "binding.account")
    else none
  let channelHit := bindings.findSome? fun b =>
    if b.channel == some channel && b.account_id.isNone && b.peer_id.isNone then
      some (b.agent_id, "binding.channel")
    else none
  let hit := (((peerHit.orElse fun _ => guildHit).orElse fun _ =>
      teamHit).orElse fun _ => accountHit).orElse fun _ => channelHit
  let pair := hit.getD (default_agent, "default")
  { agent_id := pair.1
    session_key := pair.1 ++ ":" ++ channel ++ ":" ++ account ++ ":" ++ peer.getD "main"
    matched_by := pair.2 }

/-- Spec rule 1: `peer_id == peer` (both present). -/
def matchesPeerRule (peer : Option String) (b : Binding) : Bool :=
  match b.peer_id, peer with
  | some bp, some p => bp == p
  | _, _ => false

/-- Spec rule 2: `guild_id == guild`. -/
def matchesGuildRule (guild : Option String) (b : Binding) : Bool :=
  match b.guild_id, guild with
  | some bg, some g => bg == g
  | _, _ => false

/-- Spec rule 3: `team_id == team`. -/
def matchesTeamRule (team : Option String) (b : Binding) : Bool :=
  match b.team_id, team with
  | some bt, some t => bt == t
  | _, _ => false

/-- Spec rule 4: `account_id == account` and `peer_id`, `guild_id` unset. -/
def matchesAccountRule (account : String) (b : Binding) : Bool :=
  b.account_id == some account && b.peer_id.isNone && b.guild_id.isNone

/-- Spec rule 5: `channel == channel` and `account_id`, `peer_id` unset. -/
def matchesChannelRule (channel : String) (b : Binding) : Bool :=
  b.channel == some channel && b.account_id.isNone && b.peer_id.isNone

/-- Modelled from the spec's words (section 4.3): walk the binding list in
strict priority order — peer, guild, team, account, channel — returning
the agent of the first binding matched at the highest-priority level,
the matched-rule tag, and the session key. -/
def resolveSpec (bindings : List Binding) (default_agent : String)
    (channel account : String) (peer guild team : Option String) : RouteResult :=
  let pair :=
    match bindings.find? (matchesPeerRule peer) with
    | some b => (b.agent_id, "binding.peer")
    | none =>
      match bindings.find? (matchesGuildRule guild) with
      | some b => (b.agent_id, "binding.guild")
      | none =>
        match bindings.find? (matchesTeamRule team) with
        | some b => (b.agent_id, "binding.team")
        | none =>
          match bindings.find? (matchesAccountRule account) with
          | some b => (b.agent_id, "binding.account")
          | none =>
            match bindings.find? (matchesChannelRule channel) with
            | some b => (b.agent_id, "binding.channel")
            | none => (default_agent, "default")
  { agent_id := pair.1
    session_key := pair.1 ++ ":" ++ channel ++ ":" ++ account ++ ":" ++ peer.getD "main"
    matched_by := pair.2 }

lemma findSome?_guard {α β : Type} (p : α → Bool) (f : α → β) :
    ∀ l : List α, (l.findSome? fun a => if p a then some (f a) else none)
      = (l.find? p).map f := by
  intro l
  induction l with
  | nil => rfl
  | cons a l ih =>
    by_cases h : p a
    · simp [List.findSome?, List.find?, h]
    · simp only [List.findSome?_cons, List.find?_cons]
      simp [h, ih]

lemma peer_arm_eq (peer : Option String) (b : Binding) :
    (match b.peer_id, peer with
      | some bp, some p => if bp == p then some (b.agent_id, "binding.peer") else none
      | _, _ => none)
      = if matchesPeerRule peer b then some (b.agent_id, "binding.peer") else none := by
  unfold matchesPeerRule
  rcases b.peer_id with _ | bp <;> rcases peer with _ | p <;> simp

lemma guild_arm_eq (guild : Option String) (b : Binding) :
    (match b.guild_id, guild with
      | some bg, some g => if bg == g then some (b.agent_id, "binding.guild") else none
      | _, _ => none)
      = if matchesGuildRule guild b then some (b.agent_id, "binding.guild") else none := by
  unfold matchesGuildRule
  rcases b.guild_id with _ | bg <;> rcases guild with _ | g <;> simp

lemma team_arm_eq (team : Option String) (b : Binding) :
    (match b.team_id, team with
      | some bt, some t => if bt == t then some (b.agent_id, "binding.team") else none
      | _, _ => none)
      = if matchesTeamRule team b then some (b.agent_id, "binding.team") else none := by
  unfold matchesTeamRule
  rcases b.team_id with _ | bt <;> rcases team with _ | t <;> simp

lemma resolve_eq_resolveSpec (bindings : List Binding) (default_agent : String)
    (channel account : String) (peer guild team : Option String) :
    resolve bindings default_agent channel account peer guild team
      = resolveSpec bindings default_agent channel account peer guild team := by
  unfold resolve resolveSpec
  have hp : (bindings.findSome? fun b =>
      match b.peer_id, peer with
      | some bp, some p => if bp == p then some (b.agent_id, "binding.peer") else none
      | _, _ => none)
      = (bindings.find? (matchesPeerRule peer)).map fun b => (b.agent_id, "binding.peer") := by
    rw [show (fun b : Binding =>
        match b.peer_id, peer with
        | some bp, some p => if bp == p then some (b.agent_id, "binding.peer") else none
        | _, _ => none)
      = fun b => if matchesPeerRule peer b then some (b.agent_id, "binding.peer") else none
      from funext fun b => peer_arm_eq peer b]
    exact findSome?_guard _ _ bindings
  have hg : (bindings.findSome? fun b =>
      match b.guild_id, guild with
      | some bg, some g => if bg == g then some (b.agent_id, "binding.guild") else none
      | _, _ => none)
      = (bindings.find? (matchesGuildRule guild)).map fun b => (b.agent_id, "binding.guild") := by
    rw [show (fun b : Binding =>
        match b.guild_id, guild with
        | some bg, some g => if bg == g then some (b.agent_id, "binding.guild") else none
        | _, _ => none)
      = fun b => if matchesGuildRule guild b then some (b.agent_id, "binding.guild") else none
      from funext fun b => guild_arm_eq guild b]
    exact findSome?_guard _ _ bindings
  have ht : (bindings.findSome? fun b =>
      match b.team_id, team with
      | some bt, some t => if bt == t then some (b.agent_id, "binding.team") else none
      | _, _ => none)
      = (bindings.find? (matchesTeamRule team)).map fun b => (b.agent_id, "binding.team") := by
    rw [show (fun b : Binding =>
        match b.team_id, team with
        | some bt, some t => if bt == t then some (b.agent_id, "binding.team") else none
        | _, _ => none)
      = fun b => if matchesTeamRule team b then some (b.agent_id, "binding.team") else none
      from funext fun b => team_arm_eq team b]
    exact findSome?_guard _ _ bindings
  have ha := findSome?_guard (matchesAccountRule account)
    (fun b : Binding => (b.agent_id, "binding.account")) bindings
  have hc := findSome?_guard (matchesChannelRule channel)
    (fun b : Binding => (b.agent_id, "binding.channel")) bindings
  simp only [matchesAccountRule, matchesChannelRule] at ha hc
  rw [hp, hg, ht, ha, hc]
  rcases bindings.find? (matchesPeerRule peer) with _ | b1 <;>
    rcases bindings.find? (matchesGuildRule guild) with _ | b2 <;>
    rcases bindings.find? (matchesTeamRule team) with _ | b3 <;>
    rcases bindings.find? (matchesAccountRule account) with _ | b4 <;>
    rcases bindings.find? (matchesChannelRule channel) with _ | b5 <;>
    simp [Option.orElse]

/-- The two bindings of scenario S1. -/
def s1Bindings : List Binding :=
  [{ agent_id := "channel-agent", channel := some "telegram", account_id := none,
     peer_id := none, guild_id := none, team_id := none },
   { agent_id := "peer-agent", channel := none, account_id := none,
     peer_id := some "user-42", guild_id := none, team_id := none }]

/-- Claim C1: `resolve` walks the binding list in strict priority order
(peer, then guild, then team, then account with peer and guild unset,
then channel with account and peer unset, then the default agent
"default"), returning the first match's agent, the matched-rule tag,
and the session key `agent:channel:account:peer` with peer defaulting
to "main"; in particular scenario S1 resolves to the peer binding. -/
theorem resolve_priority_order :
    (∀ (bindings : List Binding) (default_agent channel account : String)
        (peer guild team : Option String),
      resolve bindings default_agent channel account peer guild team
        = resolveSpec bindings default_agent channel account peer guild team) ∧
    resolve s1Bindings "default" "telegram" "acct" (some "user-42") none none
      = { agent_id := "peer-agent", session_key := "peer-agent:telegram:acct:user-42",
          matched_by := "binding.peer" } ∧
    resolve s1Bindings "default" "telegram" "acct" none none none
      = { agent_id := "channel-agent", session_key := "channel-agent:telegram:acct:main",
          matched_by := "binding.channel" } ∧
    resolve [] "default" "telegram" "acct" none none none
      = { agent_id := "default", session_key := "default:telegram:acct:main",
          matched_by := "default" } := by
  refine ⟨resolve_eq_resolveSpec, by decide, by decide, by decide⟩

/-! ## Capability model — `src/sandbox/capabilities.rs` -/

/-- `Capability` (capabilities.rs:8-15). -/
inductive Capability where
  | Http (host : String)
  | Store (name : String)
  | HostFunction (name : String)
deriving DecidableEq

/-- `impl Display for Capability` (capabilities.rs:17-25). -/
def Capability.display : Capability → String
  | .Http host => "http:" ++ host
  | .Store name => "store:" ++ name
  | .HostFunction name => "host_function:" ++ name

/-- Rust `str::split_once` on the character list: split at the first
occurrence of `c`, excluding the delimiter. -/
def splitOnceList (c : Char) : List Char → Option (List Char × List Char)
  | [] => none
  | x :: xs =>
    if x = c then some ([], xs)
    else (splitOnceList c xs).map fun p => (x :: p.1, p.2)

/-- Rust `str::split_once` on strings. -/
def splitOnce (s : String) (c : Char) : Option (String × String) :=
  (splitOnceList c s.data).map fun p => (⟨p.1⟩, ⟨p.2⟩)

/-- `capabilities::parse` (capabilities.rs:30-49).  The Rust `match` on
the `&str` tag is an equality chain. -/
def Capability.parse (s : String) : Except String Capability :=
  match splitOnce s ':' with
  | none => .error ("invalid capability format '" ++ s ++ "': expected 'type:value'")
  | some (cap_type, value) =>
    if value = "" then .error ("capability value cannot be empty in '" ++ s ++ "'")
    else if cap_type = "http" then .ok (.Http value)
    else if cap_type = "store" then .ok (.Store value)
    else if cap_type = "host_function" then .ok (.HostFunction value)
    else .error ("unknown capability type '" ++ cap_type ++ "' in '" ++ s ++ "'")

/-- `capabilities::allowed_hosts` (capabilities.rs:57-64): project the
`Http` hosts out of a capability list, in order. -/
def allowed_hosts (caps : List Capability) : List String :=
  caps.filterMap fun c =>
    match c with
    | .Http host => some host
    | _ => none

lemma splitOnceList_append (c : Char) :
    ∀ {l l1 l2 : List Char}, splitOnceList c l = some (l1, l2) → l = l1 ++ c :: l2 := by
  intro l
  induction l with
  | nil => intro l1 l2 h; simp [splitOnceList] at h
  | cons x xs ih =>
    intro l1 l2 h
    by_cases hx : x = c
    · rw [splitOnceList, if_pos hx] at h
      simp only [Option.some.injEq, Prod.mk.injEq] at h
      obtain ⟨h1, h2⟩ := h
      subst h1; subst h2
      simp [hx]
    · rw [splitOnceList, if_neg hx] at h
      rcases hr : splitOnceList c xs with _ | ⟨p1, p2⟩
      · rw [hr] at h; simp at h
      · rw [hr] at h
        simp only [Option.map, Option.some.injEq, Prod.mk.injEq] at h
        obtain ⟨h1, h2⟩ := h
        subst h1; subst h2
        simpa using congrArg (x :: ·) (ih hr)

lemma string_mk_append (l1 l2 : List Char) :
    (⟨l1⟩ : String) ++ (⟨l2⟩ : String) = ⟨l1 ++ l2⟩ := rfl

lemma splitOnce_recombine {s : String} {c : Char} {a b : String}
    (h : splitOnce s c = some (a, b)) : a ++ String.singleton c ++ b = s := by
  unfold splitOnce at h
  rcases hs : splitOnceList c s.data with _ | ⟨p1, p2⟩
  · rw [hs] at h; simp at h
  · rw [hs] at h
    simp only [Option.map, Option.some.injEq, Prod.mk.injEq] at h
    obtain ⟨h1, h2⟩ := h
    subst h1; subst h2
    have hdata : s.data = p1 ++ c :: p2 := splitOnceList_append c hs
    apply String.ext
    rw [String.data_append, String.data_append, hdata]
    simp [String.singleton]

/-- Claim C9: displaying a parsed capability reproduces the original
string — `Display` is a right inverse of `parse` on all accepted
strings — together with concrete round trips for the three forms. -/
theorem capability_display_roundtrip :
    (∀ (s : String) (c : Capability), Capability.parse s = .ok c → c.display = s) ∧
    Capability.parse "http:api.telegram.org" = .ok (.Http "api.telegram.org") ∧
    (Capability.Http "api.telegram.org").display = "http:api.telegram.org" ∧
    Capability.parse "store:sessions" = .ok (.Store "sessions") ∧
    (Capability.Store "sessions").display = "store:sessions" ∧
    Capability.parse "host_function:my_func" = .ok (.HostFunction "my_func") ∧
    (Capability.HostFunction "my_func").display = "host_function:my_func" := by
  refine ⟨?_, rfl, rfl, rfl, rfl, rfl, rfl⟩
  intro s c h
  unfold Capability.parse at h
  split at h
  · exact absurd h (by simp)
  next a b heq =>
    have hrecomb := splitOnce_recombine heq
    split at h
    · exact absurd h (by simp)
    split at h
    next h1 =>
      cases h
      subst h1
      rw [← hrecomb]
      show ("http:" : String) ++ b = "http" ++ String.singleton ':' ++ b
      rfl
    split at h
    next h2 =>
      cases h
      subst h2
      rw [← hrecomb]
      show ("store:" : String) ++ b = "store" ++ String.singleton ':' ++ b
      rfl
    split at h
    next h3 =>
      cases h
      subst h3
      rw [← hrecomb]
      show ("host_function:" : String) ++ b = "host_function" ++ String.singleton ':' ++ b
      rfl
    · exact absurd h (by simp)

/-! ## Agent orchestrator — `src/agent/mod.rs` -/

/-- `ToolCallResult` (sandbox/mod.rs:43-47). -/
structure ToolCallResult where
  content : String
  is_error : Bool

/-- `AgentEvent` (agent/mod.rs:33-52). -/
inductive AgentEvent where
  | text (s : String)
  | toolUse (id name : String) (input : JsonValue)
  | toolResult (tool_use_id content : String) (is_error : Bool)
  | usage (input_tokens output_tokens : Nat)
  | done
  | error (msg : String)

/-- `MAX_TOOL_ITERATIONS` (agent/mod.rs:55). -/
def MAX_TOOL_ITERATIONS : Nat := 10

/-- The drain loop of `run_with_tools` (agent/mod.rs:105-139): consume the
provider's event stream, forwarding every event except `Done` to the
output channel and buffering each `ToolUse` as `(id, name, input)`.
Returns (forwarded events, buffered tool calls), both in stream order. -/
def drainEvents : List AgentEvent → List AgentEvent × List (String × String × JsonValue)
  | [] => ([], [])
  | e :: rest =>
    let (fwd, calls) := drainEvents rest
    match e with
    | .toolUse id name input => (.toolUse id name input :: fwd, (id, name, input) :: calls)
    | .done => (fwd, calls)
    | other => (other :: fwd, calls)

/-- A `tool_use` content block (agent/mod.rs:150-155). -/
def toolUseBlock (c : String × String × JsonValue) : JsonValue :=
  .obj [("type", .str "tool_use"), ("id", .str c.1), ("name", .str c.2.1),
        ("input", c.2.2)]

/-- A `tool_result` content block (agent/mod.rs:193-198). -/
def toolResultBlock (tool_use_id : String) (result : ToolCallResult) : JsonValue :=
  .obj [("type", .str "tool_result"), ("tool_use_id", .str tool_use_id),
        ("content", .str result.content), ("is_error", .bool result.is_error)]

/-- The assistant-content loop (agent/mod.rs:148-156): push one
`tool_use` block per buffered call, in order. -/
def buildAssistantContent (tool_calls : List (String × String × JsonValue)) : List JsonValue :=
  tool_calls.foldl (fun acc c => acc ++ [toolUseBlock c]) []

/-- The tool-dispatch loop (agent/mod.rs:168-199): for each buffered call
in order, look up the plugin (`has_plugin`) and either invoke
`call_tool` or produce the unknown-tool error result; emit a
`ToolResult` event and a `tool_result` block for each.  The plugin
host's lookup and invocation are abstract parameters. -/
def dispatchLoop (hasPlugin : String → Bool) (callTool : String → JsonValue → ToolCallResult) :
    List (String × String × JsonValue) → List AgentEvent × List JsonValue
  | [] => ([], [])
  | c :: rest =>
    let result := if hasPlugin c.2.1 then callTool c.2.1 c.2.2
      else { content := "unknown tool: " ++ c.2.1, is_error := true }
    let (evs, blocks) := dispatchLoop hasPlugin callTool rest
    (.toolResult c.1 result.content result.is_error :: evs,
     toolResultBlock c.1 result :: blocks)

/-- Outcome of one iteration of the tool loop: either the turn had no
tool calls (emit `Done` and return) or the loop continues with the
extended message history. -/
inductive TurnOutcome where
  | finished (outputs : List AgentEvent)
  | next (outputs : List AgentEvent) (newMessages : List JsonValue)

/-- One iteration of `run_with_tools` (agent/mod.rs:94-209) after the
provider stream for this turn has been received: drain the stream,
and either finish (no tool calls: agent/mod.rs:142-145) or dispatch
the buffered calls, appending the assistant `tool_use` message and the
user `tool_result` message to the history (agent/mod.rs:147-207). -/
def runTurn (hasPlugin : String → Bool) (callTool : String → JsonValue → ToolCallResult)
    (messages : List JsonValue) (events : List AgentEvent) : TurnOutcome :=
  if ((drainEvents events).2).isEmpty then .finished ((drainEvents events).1 ++ [.done])
  else
    .next
      ((drainEvents events).1 ++ (dispatchLoop hasPlugin callTool (drainEvents events).2).1)
      (messages ++
        [.obj [("role", .str "assistant"),
           ("content", .arr (buildAssistantContent (drainEvents events).2))],
         .obj [("role", .str "user"),
           ("content", .arr (dispatchLoop hasPlugin callTool (drainEvents events).2).2)]])

/-- The `run_with_tools` loop (agent/mod.rs:81-210) combined with the
gateway runner's error handling (gateway/protocol.rs:326-335): the
provider is a deterministic function from the message history to its
event stream, or to an error (a failed `call_streaming`, which the
gateway surfaces as `Error("provider error: …")` then `Done`).  `fuel`
is the number of provider calls still allowed; exhausting it is the
`iteration > MAX_TOOL_ITERATIONS` branch (agent/mod.rs:83-92). -/
def runWithToolsAux (hasPlugin : String → Bool)
    (callTool : String → JsonValue → ToolCallResult)
    (provider : List JsonValue → Except String (List AgentEvent)) :
    Nat → List JsonValue → List AgentEvent
  | 0, _ => [.error "tool-use loop exceeded max iterations", .done]
  | fuel + 1, messages =>
    match provider messages with
    | .error e => [.error ("provider error: " ++ e), .done]
    | .ok events =>
      match runTurn hasPlugin callTool messages events with
      | .finished out => out
      | .next out newMessages =>
        out ++ runWithToolsAux hasPlugin callTool provider fuel newMessages

/-- `run_with_tools` from a fresh turn counter. -/
def runWithTools (hasPlugin : String → Bool)
    (callTool : String → JsonValue → ToolCallResult)
    (provider : List JsonValue → Except String (List AgentEvent))
    (messages : List JsonValue) : List AgentEvent :=
  runWithToolsAux hasPlugin callTool provider MAX_TOOL_ITERATIONS messages

/-- Whether an event is `Done`. -/
def isDoneEvent : AgentEvent → Bool
  | .done => true
  | _ => false

lemma dispatchLoop_events (hasPlugin : String → Bool)
    (callTool : String → JsonValue → ToolCallResult) :
    ∀ calls : List (String × String × JsonValue),
      (dispatchLoop hasPlugin callTool calls).1
        = calls.map fun c =>
            AgentEvent.toolResult c.1
              (if hasPlugin c.2.1 then callTool c.2.1 c.2.2
               else { content := "unknown tool: " ++ c.2.1, is_error := true }).content
              (if hasPlugin c.2.1 then callTool c.2.1 c.2.2
               else { content := "unknown tool: " ++ c.2.1, is_error := true }).is_error := by
  intro calls
  induction calls with
  | nil => rfl
  | cons c rest ih => simp [dispatchLoop, ih]

lemma dispatchLoop_blocks (hasPlugin : String → Bool)
    (callTool : String → JsonValue → ToolCallResult) :
    ∀ calls : List (String × String × JsonValue),
      (dispatchLoop hasPlugin callTool calls).2
        = calls.map fun c =>
            toolResultBlock c.1
              (if hasPlugin c.2.1 then callTool c.2.1 c.2.2
               else { content := "unknown tool: " ++ c.2.1, is_error := true }) := by
  intro calls
  induction calls with
  | nil => rfl
  | cons c rest ih => simp [dispatchLoop, ih]

lemma buildAssistantContent_eq_map :
    ∀ (calls : List (String × String × JsonValue)) (acc : List JsonValue),
      calls.foldl (fun acc c => acc ++ [toolUseBlock c]) acc = acc ++ calls.map toolUseBlock := by
  intro calls
  induction calls with
  | nil => intro acc; simp
  | cons c rest ih => intro acc; simp [ih]

lemma drain_toolUse_forwarded :
    ∀ (events : List AgentEvent) (c : String × String × JsonValue),
      c ∈ (drainEvents events).2 →
      AgentEvent.toolUse c.1 c.2.1 c.2.2 ∈ (drainEvents events).1 := by
  intro events
  induction events with
  | nil => intro c h; simp [drainEvents] at h
  | cons e rest ih =>
    intro c h
    match e with
    | .toolUse id name input =>
      simp only [drainEvents, List.mem_cons] at h ⊢
      rcases h with h | h
      · subst h; left; rfl
      · right; exact ih c h
    | .done =>
      simp only [drainEvents] at h ⊢
      exact ih c h
    | .text s =>
      simp only [drainEvents, List.mem_cons] at h ⊢
      right; exact ih c h
    | .toolResult a b d =>
      simp only [drainEvents, List.mem_cons] at h ⊢
      right; exact ih c h
    | .usage a b =>
      simp only [drainEvents, List.mem_cons] at h ⊢
      right; exact ih c h
    | .error m =>
      simp only [drainEvents, List.mem_cons] at h ⊢
      right; exact ih c h

lemma drain_no_done :
    ∀ events : List AgentEvent, ((drainEvents events).1).countP isDoneEvent = 0 := by
  intro events
  induction events with
  | nil => rfl
  | cons e rest ih =>
    match e with
    | .toolUse id name input => simp [drainEvents, List.countP_cons, isDoneEvent, ih]
    | .done => simpa [drainEvents] using ih
    | .text s => simp [drainEvents, List.countP_cons, isDoneEvent, ih]
    | .toolResult a b d => simp [drainEvents, List.countP_cons, isDoneEvent, ih]
    | .usage a b => simp [drainEvents, List.countP_cons, isDoneEvent, ih]
    | .error m => simp [drainEvents, List.countP_cons, isDoneEvent, ih]

lemma dispatch_no_done (hasPlugin : String → Bool)
    (callTool : String → JsonValue → ToolCallResult) :
    ∀ calls : List (String × String × JsonValue),
      ((dispatchLoop hasPlugin callTool calls).1).countP isDoneEvent = 0 := by
  intro calls
  induction calls with
  | nil => rfl
  | cons c rest ih => simp [dispatchLoop, List.countP_cons, isDoneEvent, ih]

lemma runWithToolsAux_done_suffix (hasPlugin : String → Bool)
    (callTool : String → JsonValue → ToolCallResult)
    (provider : List JsonValue → Except String (List AgentEvent)) :
    ∀ (fuel : Nat) (messages : List JsonValue),
      ∃ pre, runWithToolsAux hasPlugin callTool provider fuel messages
          = pre ++ [AgentEvent.done] ∧ pre.countP isDoneEvent = 0 := by
  intro fuel
  induction fuel with
  | zero =>
    intro messages
    exact ⟨[.error "tool-use loop exceeded max iterations"], rfl, rfl⟩
  | succ n ih =>
    intro messages
    rcases hp : provider messages with e | events
    · refine ⟨[.error ("provider error: " ++ e)], ?_, by simp [List.countP_cons, isDoneEvent]⟩
      simp [runWithToolsAux, hp]
    · rcases ht : runTurn hasPlugin callTool messages events with out | ⟨out, newMessages⟩
      · refine ⟨(drainEvents events).1, ?_, drain_no_done events⟩
        simp only [runWithToolsAux, hp, ht]
        unfold runTurn at ht
        split at ht
        · cases ht; rfl
        · cases ht
      · obtain ⟨pre, hpre, hcount⟩ := ih newMessages
        refine ⟨out ++ pre, ?_, ?_⟩
        · simp only [runWithToolsAux, hp, ht]
          rw [hpre, List.append_assoc]
        · rw [List.countP_append, hcount]
          unfold runTurn at ht
          split at ht
          · cases ht
          · cases ht
            rw [List.countP_append, drain_no_done events, dispatch_no_done]

/-- Claim C2: in a provider turn that buffers tool calls, `run_with_tools`
forwards each `ToolUse`, dispatches the buffered calls strictly in
order (unknown plugins yield the `unknown tool` error result, known
ones the structured `call_tool` result), appends exactly one assistant
message of ordered `tool_use` blocks and one user message of ordered
`tool_result` blocks, and issues another provider call; a turn with no
buffered calls emits exactly one final `Done` and returns.  The last
conjunct runs the `echo` scenario S4 end to end. -/
theorem run_with_tools_tool_dispatch :
    (∀ (hasPlugin : String → Bool) (callTool : String → JsonValue → ToolCallResult)
        (messages : List JsonValue) (events : List AgentEvent),
      (drainEvents events).2 ≠ [] →
      runTurn hasPlugin callTool messages events =
        .next
          ((drainEvents events).1 ++ (drainEvents events).2.map (fun c =>
            AgentEvent.toolResult c.1
              (if hasPlugin c.2.1 then callTool c.2.1 c.2.2
               else { content := "unknown tool: " ++ c.2.1, is_error := true }).content
              (if hasPlugin c.2.1 then callTool c.2.1 c.2.2
               else { content := "unknown tool: " ++ c.2.1, is_error := true }).is_error))
          (messages ++
            [.obj [("role", .str "assistant"),
               ("content", .arr ((drainEvents events).2.map toolUseBlock))],
             .obj [("role", .str "user"),
               ("content", .arr ((drainEvents events).2.map (fun c =>
                 toolResultBlock c.1
                   (if hasPlugin c.2.1 then callTool c.2.1 c.2.2
                    else { content := "unknown tool: " ++ c.2.1, is_error := true }))))]])) ∧
    (∀ (events : List AgentEvent) (c : String × String × JsonValue),
      c ∈ (drainEvents events).2 →
      AgentEvent.toolUse c.1 c.2.1 c.2.2 ∈ (drainEvents events).1) ∧
    (∀ (hasPlugin : String → Bool) (callTool : String → JsonValue → ToolCallResult)
        (provider : List JsonValue → Except String (List AgentEvent))
        (fuel : Nat) (messages : List JsonValue) (events : List AgentEvent)
        (out : List AgentEvent) (newMessages : List JsonValue),
      provider messages = .ok events →
      runTurn hasPlugin callTool messages events = .next out newMessages →
      runWithToolsAux hasPlugin callTool provider (fuel + 1) messages
        = out ++ runWithToolsAux hasPlugin callTool provider fuel newMessages) ∧
    (∀ (hasPlugin : String → Bool) (callTool : String → JsonValue → ToolCallResult)
        (messages : List JsonValue) (events : List AgentEvent),
      (drainEvents events).2 = [] →
      runTurn hasPlugin callTool messages events
          = .finished ((drainEvents events).1 ++ [.done]) ∧
      ((drainEvents events).1 ++ [AgentEvent.done]).countP isDoneEvent = 1) := by
  refine ⟨?_, drain_toolUse_forwarded, ?_, ?_⟩
  · intro hasPlugin callTool messages events h
    unfold runTurn
    rw [if_neg (by simpa [List.isEmpty_iff] using h)]
    rw [dispatchLoop_events, dispatchLoop_blocks]
    rw [buildAssistantContent, buildAssistantContent_eq_map]
    simp
  · intro hasPlugin callTool provider fuel messages events out newMessages hp ht
    simp only [runWithToolsAux, hp, ht]
  · intro hasPlugin callTool messages events h
    constructor
    · unfold runTurn
      rw [if_pos (by simpa [List.isEmpty_iff] using h)]
    · rw [List.countP_append, drain_no_done events]
      rfl

/-- The single user message of scenario S4. -/
def echoUserMessage : JsonValue :=
  .obj [("role", .str "user"), ("content", .str "say hi")]

/-- Scenario S4's plugin host: only the `echo` tool is registered. -/
def echoHasPlugin (name : String) : Bool := name == "echo"

/-- Scenario S4's `call_tool`: echoes the `message` field. -/
def echoCallTool (name : String) (input : JsonValue) : ToolCallResult :=
  if name == "echo" then
    { content := "echo: " ++ (((input.get "message").bind JsonValue.asStr).getD ""),
      is_error := false }
  else { content := "no such tool", is_error := true }

/-- Scenario S4's provider: the first call returns one `tool_use` turn,
the follow-up call (history extended by the assistant and user tool
messages) returns text. -/
def echoProvider (messages : List JsonValue) : Except String (List AgentEvent) :=
  if messages.length ≤ 1 then
    .ok [.toolUse "t1" "echo" (.obj [("message", .str "hi")]), .done]
  else
    .ok [.text "done!", .usage 12 3, .done]

/-- Claim C3: for every request accepted by `chat.send`, the event stream
written to the client channel ends with exactly one `Done` and no
event follows it: `run_with_tools` ends with `Done` on normal
completion and on exceeding the maximum tool iterations, and a failed
provider call yields `Error` followed by `Done`.  The final conjunct
checks a concrete single-text stream. -/
theorem chat_stream_ends_with_done :
    (∀ (hasPlugin : String → Bool) (callTool : String → JsonValue → ToolCallResult)
        (provider : List JsonValue → Except String (List AgentEvent))
        (messages : List JsonValue),
      ∃ pre, runWithTools hasPlugin callTool provider messages
          = pre ++ [AgentEvent.done] ∧ pre.countP isDoneEvent = 0) ∧
    (∀ (hasPlugin : String → Bool) (callTool : String → JsonValue → ToolCallResult)
        (provider : List JsonValue → Except String (List AgentEvent))
        (fuel : Nat) (messages : List JsonValue) (e : String),
      provider messages = .error e →
      runWithToolsAux hasPlugin callTool provider (fuel + 1) messages
        = [.error ("provider error: " ++ e), .done]) ∧
    (∀ (hasPlugin : String → Bool) (callTool : String → JsonValue → ToolCallResult)
        (provider : List JsonValue → Except String (List AgentEvent))
        (messages : List JsonValue),
      runWithToolsAux hasPlugin callTool provider 0 messages
        = [.error "tool-use loop exceeded max iterations", .done]) ∧
    runWithTools echoHasPlugin echoCallTool
      (fun _ => .ok [.text "hello", .usage 5 1, .done]) []
      = [.text "hello", .usage 5 1, .done] := by
  refine ⟨?_, ?_, ?_, ?_⟩
  · intro hasPlugin callTool provider messages
    exact runWithToolsAux_done_suffix hasPlugin callTool provider MAX_TOOL_ITERATIONS messages
  · intro hasPlugin callTool provider fuel messages e hp
    rw [runWithToolsAux, hp]
  · intro hasPlugin callTool provider messages
    rfl
  · rfl

/-- Claim C2's scenario S4, checked end to end: the orchestrator forwards
the `tool_use` event, emits the echo tool's result, issues one more
provider call, forwards its text and usage, and ends with a single
`Done`. -/
lemma echo_scenario_runs :
    runWithTools echoHasPlugin echoCallTool echoProvider [echoUserMessage]
      = [.toolUse "t1" "echo" (.obj [("message", .str "hi")]),
         .toolResult "t1" "echo: hi" false,
         .text "done!", .usage 12 3, .done] := by
  rfl

/-! ## Budget meter — `src/agent/metering.rs` -/

/-- `BudgetScope` (metering.rs:28-33). -/
inductive BudgetScope where
  | session (key : String)
  | daily
  | monthly
deriving DecidableEq

/-- `impl Display for BudgetScope` (metering.rs:35-43). -/
def BudgetScope.display : BudgetScope → String
  | .session key => "session:" ++ key
  | .daily => "daily"
  | .monthly => "monthly"

/-- `BudgetExceeded` (metering.rs:68-73). -/
structure BudgetExceeded where
  scope : BudgetScope
  used : Nat
  limit : Nat
deriving DecidableEq

/-- `impl Display for BudgetExceeded` (metering.rs:75-83). -/
def BudgetExceeded.display (e : BudgetExceeded) : String :=
  "token budget exceeded (" ++ e.scope.display ++ ": "
    ++ toString e.used ++ "/" ++ toString e.limit ++ ")"

/-- `BudgetConfig` (config.rs): the three optional token limits. -/
structure BudgetConfig where
  session : Option Nat
  daily : Option Nat
  monthly : Option Nat

/-- `TokenRecord` (metering.rs:56-65); the `f64` `cost_estimate_usd`
field is floating point and used by no claim, so it is omitted. -/
structure TokenRecord where
  timestamp : Nat
  session_key : String
  agent_id : String
  provider : String
  model : String
  input_tokens : Nat
  output_tokens : Nat
deriving DecidableEq

/-- The clock passed in place of `chrono::Utc::now()`: the current
instant together with `start_of_day(now)` and `start_of_month(now)`
(metering.rs:393-407), all as abstract `Nat` instants. -/
structure Clock where
  now : Nat
  dayStart : Nat
  monthStart : Nat

/-- `TokenCounter` (metering.rs:150-169).  The session-usage `HashMap`
becomes an association list. -/
structure TokenCounter where
  session_limit : Option Nat
  daily_limit : Option Nat
  monthly_limit : Option Nat
  session_usage : List (String × Nat)
  daily_used : Nat
  daily_start : Nat
  monthly_used : Nat
  monthly_start : Nat
  records : List TokenRecord

/-- `TokenCounter::new` (metering.rs:173-186). -/
def TokenCounter.new (budget : BudgetConfig) (clock : Clock) : TokenCounter :=
  { session_limit := budget.session
    daily_limit := budget.daily
    monthly_limit := budget.monthly
    session_usage := []
    daily_used := 0
    daily_start := clock.dayStart
    monthly_used := 0
    monthly_start := clock.monthStart
    records := [] }

/-- `session_usage.get(key).copied().unwrap_or(0)` (metering.rs:204). -/
def lookupUsage (key : String) : List (String × Nat) → Nat
  | [] => 0
  | (k, v) :: rest => if k == key then v else lookupUsage key rest

/-- `session_usage.entry(key).or_insert(0) += total` (metering.rs:254-258). -/
def bumpUsage (key : String) (total : Nat) : List (String × Nat) → List (String × Nat)
  | [] => [(key, total)]
  | (k, v) :: rest =>
    if k == key then (k, v + total) :: rest else (k, v) :: bumpUsage key total rest

/-- `TokenCounter::maybe_reset_periods` (metering.rs:331-347). -/
def maybe_reset_periods (clock : Clock) (c : TokenCounter) : TokenCounter :=
  let c :=
    if clock.dayStart > c.daily_start then
      { c with daily_used := 0, daily_start := clock.dayStart }
    else c
  if clock.monthStart > c.monthly_start then
    { c with monthly_used := 0, monthly_start := clock.monthStart }
  else c

/-- `TokenCounter::check_budget` (metering.rs:194-237): reset rolled-over
periods, then check the session, daily, and monthly scopes in that
order.  The Rust early returns become an `Option.orElse` chain; the
possibly-reset counter is returned alongside the verdict. -/
def check_budget (clock : Clock) (c0 : TokenCounter) (session_key : String)
    (estimated_tokens : Nat) : TokenCounter × Option BudgetExceeded :=
  let c := maybe_reset_periods clock c0
  let sessionFail : Option BudgetExceeded :=
    match c.session_limit with
    | some limit =>
      if lookupUsage session_key c.session_usage + estimated_tokens > limit then
        some { scope := .session session_key,
               used := lookupUsage session_key c.session_usage, limit := limit }
      else none
    | none => none
  let dailyFail : Option BudgetExceeded :=
    match c.daily_limit with
    | some limit =>
      if c.daily_used + estimated_tokens > limit then
        some { scope := .daily, used := c.daily_used, limit := limit }
      else none
    | none => none
  let monthlyFail : Option BudgetExceeded :=
    match c.monthly_limit with
    | some limit =>
      if c.monthly_used + estimated_tokens > limit then
        some { scope := .monthly, used := c.monthly_used, limit := limit }
      else none
    | none => none
  (c, sessionFail.orElse fun _ => dailyFail.orElse fun _ => monthlyFail)

/-- `TokenCounter::record_usage` (metering.rs:242-289): add the call's
total to the session counter, reset rolled-over periods, add to the
daily and monthly counters, and append an audit record. -/
def record_usage (clock : Clock) (c : TokenCounter) (session_key agent_id provider model : String)
    (input_tokens output_tokens : Nat) : TokenCounter :=
  let total := input_tokens + output_tokens
  let c := { c with session_usage := bumpUsage session_key total c.session_usage }
  let c := maybe_reset_periods clock c
  { c with
    daily_used := c.daily_used + total
    monthly_used := c.monthly_used + total
    records := c.records ++
      [{ timestamp := clock.now, session_key := session_key, agent_id := agent_id,
         provider := provider, model := model,
         input_tokens := input_tokens, output_tokens := output_tokens }] }

/-- The counter of scenario S3: `budgets={session:1000}` after
`record_usage("s", input=500, output=400)`. -/
def s3Counter : TokenCounter :=
  record_usage { now := 0, dayStart := 0, monthStart := 0 }
    (TokenCounter.new { session := some 1000, daily := none, monthly := none }
      { now := 0, dayStart := 0, monthStart := 0 })
    "s" "agent" "anthropic" "model" 500 400

/-- Claim C5: `check_budget` first rolls the daily/monthly periods over,
then fails with a typed `BudgetExceeded` on the first over-budget
scope in the order session, daily, monthly; unconfigured limits never
fail.  Scenario S3: with a session budget of 1000 and 900 tokens
recorded, a 200-token estimate is refused with `used=900, limit=1000,
scope=session "s"` displaying as
"token budget exceeded (session:s: 900/1000)". -/
theorem check_budget_scope_order :
    (∀ (clock : Clock) (c : TokenCounter) (key : String) (est : Nat),
      (check_budget clock c key est).1 = maybe_reset_periods clock c) ∧
    (∀ (clock : Clock) (c : TokenCounter) (key : String) (est limit : Nat),
      (maybe_reset_periods clock c).session_limit = some limit →
      lookupUsage key (maybe_reset_periods clock c).session_usage + est > limit →
      (check_budget clock c key est).2
        = some { scope := .session key,
                 used := lookupUsage key (maybe_reset_periods clock c).session_usage,
                 limit := limit }) ∧
    (∀ (clock : Clock) (c : TokenCounter) (key : String) (est limit : Nat),
      (∀ sl, (maybe_reset_periods clock c).session_limit = some sl →
        lookupUsage key (maybe_reset_periods clock c).session_usage + est ≤ sl) →
      (maybe_reset_periods clock c).daily_limit = some limit →
      (maybe_reset_periods clock c).daily_used + est > limit →
      (check_budget clock c key est).2
        = some { scope := .daily, used := (maybe_reset_periods clock c).daily_used,
                 limit := limit }) ∧
    (∀ (clock : Clock) (c : TokenCounter) (key : String) (est limit : Nat),
      (∀ sl, (maybe_reset_periods clock c).session_limit = some sl →
        lookupUsage key (maybe_reset_periods clock c).session_usage + est ≤ sl) →
      (∀ dl, (maybe_reset_periods clock c).daily_limit = some dl →
        (maybe_reset_periods clock c).daily_used + est ≤ dl) →
      (maybe_reset_periods clock c).monthly_limit = some limit →
      (maybe_reset_periods clock c).monthly_used + est > limit →
      (check_budget clock c key est).2
        = some { scope := .monthly, used := (maybe_reset_periods clock c).monthly_used,
                 limit := limit }) ∧
    (∀ (clock : Clock) (c : TokenCounter) (key : String) (est : Nat),
      (maybe_reset_periods clock c).session_limit = none →
      (maybe_reset_periods clock c).daily_limit = none →
      (maybe_reset_periods clock c).monthly_limit = none →
      (check_budget clock c key est).2 = none) ∧
    lookupUsage "s" s3Counter.session_usage = 900 ∧
    (check_budget { now := 0, dayStart := 0, monthStart := 0 } s3Counter "s" 200).2
      = some { scope := .session "s", used := 900, limit := 1000 } ∧
    ((check_budget { now := 0, dayStart := 0, monthStart := 0 } s3Counter "s" 200).2.map
        BudgetExceeded.display)
      = some "token budget exceeded (session:s: 900/1000)" := by
  refine ⟨?_, ?_, ?_, ?_, ?_, by decide, by decide, by decide⟩
  · intro clock c key est
    rfl
  · intro clock c key est limit hl hover
    unfold check_budget
    simp only [hl, if_pos hover]
    rfl
  · intro clock c key est limit hsess hl hover
    unfold check_budget
    simp only [hl, if_pos hover]
    rcases hs : (maybe_reset_periods clock c).session_limit with _ | sl
    · rfl
    · have := hsess sl hs
      simp only [hs]
      rw [if_neg (by omega)]
      rfl
  · intro clock c key est limit hsess hdaily hl hover
    unfold check_budget
    simp only [hl, if_pos hover]
    rcases hs : (maybe_reset_periods clock c).session_limit with _ | sl <;>
      rcases hd : (maybe_reset_periods clock c).daily_limit with _ | dl
    · rfl
    · have := hdaily dl hd
      simp only [hd]
      rw [if_neg (by omega)]
      rfl
    · have := hsess sl hs
      simp only [hs]
      rw [if_neg (by omega)]
      rfl
    · have h1 := hsess sl hs
      have h2 := hdaily dl hd
      simp only [hs, hd]
      rw [if_neg (by omega), if_neg (by omega)]
      rfl
  · intro clock c key est h1 h2 h3
    unfold check_budget
    simp only [h1, h2, h3]
    rfl

/-- Claim C10: a configured limit admits a call whose estimate exactly
exhausts the remaining budget — `check_budget` passes iff for every
configured scope the running total plus the estimate is at most the
limit — so with limit 1000 and 900 used, an estimate of 100 passes
and an estimate of 101 fails. -/
theorem check_budget_boundary :
    (∀ (clock : Clock) (c : TokenCounter) (key : String) (est : Nat),
      (check_budget clock c key est).2 = none ↔
        ((∀ limit, (maybe_reset_periods clock c).session_limit = some limit →
            lookupUsage key (maybe_reset_periods clock c).session_usage + est ≤ limit) ∧
         (∀ limit, (maybe_reset_periods clock c).daily_limit = some limit →
            (maybe_reset_periods clock c).daily_used + est ≤ limit) ∧
         (∀ limit, (maybe_reset_periods clock c).monthly_limit = some limit →
            (maybe_reset_periods clock c).monthly_used + est ≤ limit))) ∧
    (check_budget { now := 0, dayStart := 0, monthStart := 0 } s3Counter "s" 100).2 = none ∧
    (check_budget { now := 0, dayStart := 0, monthStart := 0 } s3Counter "s" 101).2
      = some { scope := .session "s", used := 900, limit := 1000 } := by
  refine ⟨?_, by decide, by decide⟩
  intro clock c key est
  unfold check_budget
  rcases hs : (maybe_reset_periods clock c).session_limit with _ | sl <;>
    rcases hd : (maybe_reset_periods clock c).daily_limit with _ | dl <;>
    rcases hm : (maybe_reset_periods clock c).monthly_limit with _ | ml <;>
    simp only [hs, hd, hm] <;>
    first
      | (split_ifs <;> simp [Option.orElse] <;> omega)
      | (simp [Option.orElse])

/-! ## Episodic memory — `src/memory/episodic.rs` -/

/-- `MessageContent` (types.rs:16-31). -/
inductive MessageContent where
  | Text (text : String)
  | ToolUse (id name : String) (input : JsonValue)
  | ToolResult (tool_use_id content : String) (is_error : Bool)

/-- `Message` (types.rs:5-11); the chrono timestamp is a `Nat` instant. -/
structure Message where
  role : String
  content : MessageContent
  timestamp : Nat
  token_count : Option Nat

/-- The buffer update inside `EpisodicMemory::append`
(episodic.rs:26-35): push the message, then trim from the head to at
most `window_turns * 2` entries. -/
def appendToBuffer (window_turns : Nat) (messages : List Message) (message : Message) :
    List Message :=
  let msgs := messages ++ [message]
  if msgs.length > window_turns * 2 then
    msgs.drop (msgs.length - window_turns * 2)
  else msgs

/-- `EpisodicMemory` (episodic.rs:9-13); the per-session `HashMap`
becomes an association list. -/
structure EpisodicMemory where
  window_turns : Nat
  sessions : List (String × List Message)

/-- Association-list update for `sessions.entry(key).or_default()`
followed by the buffer update. -/
def updateSession (window_turns : Nat) (key : String) (message : Message) :
    List (String × List Message) → List (String × List Message)
  | [] => [(key, appendToBuffer window_turns [] message)]
  | (k, msgs) :: rest =>
    if k == key then (k, appendToBuffer window_turns msgs message) :: rest
    else (k, msgs) :: updateSession window_turns key message rest

/-- `EpisodicMemory::append` (episodic.rs:26-35). -/
def EpisodicMemory.append (m : EpisodicMemory) (session_key : String) (message : Message) :
    EpisodicMemory :=
  { m with sessions := updateSession m.window_turns session_key message m.sessions }

/-- A session's current buffer (empty when the session is unknown). -/
def EpisodicMemory.buffer (m : EpisodicMemory) (session_key : String) : List Message :=
  (m.sessions.lookup session_key).getD []

lemma appendToBuffer_eq_drop (window_turns : Nat) (messages : List Message) (message : Message) :
    appendToBuffer window_turns messages message
      = (messages ++ [message]).drop ((messages.length + 1) - window_turns * 2) := by
  unfold appendToBuffer
  by_cases h : (messages ++ [message]).length > window_turns * 2
  · rw [if_pos h]
    simp
  · rw [if_neg h]
    simp only [List.length_append, List.length_cons, List.length_nil] at h
    rw [show messages.length + 1 - window_turns * 2 = 0 by omega, List.drop_zero]

lemma foldl_appendToBuffer (window_turns : Nat) :
    ∀ (ms : List Message) (buf : List Message), buf.length ≤ window_turns * 2 →
      ms.foldl (appendToBuffer window_turns) buf
        = (buf ++ ms).drop ((buf.length + ms.length) - window_turns * 2) := by
  intro ms
  induction ms with
  | nil =>
    intro buf hbuf
    simp only [List.foldl_nil, List.append_nil, List.length_nil, Nat.add_zero]
    rw [show buf.length - window_turns * 2 = 0 by omega, List.drop_zero]
  | cons m rest ih =>
    intro buf hbuf
    have hlen : (appendToBuffer window_turns buf m).length ≤ window_turns * 2 := by
      rw [appendToBuffer_eq_drop, List.length_drop]
      simp only [List.length_append, List.length_cons, List.length_nil]
      omega
    rw [List.foldl_cons, ih _ hlen, appendToBuffer_eq_drop]
    have hk : (buf.length + 1) - window_turns * 2 ≤ (buf ++ [m]).length := by
      simp only [List.length_append, List.length_cons, List.length_nil]
      omega
    rw [List.length_drop]
    rw [← List.drop_append_of_le_length hk, List.drop_drop]
    have hlen2 : (buf ++ [m]).length = buf.length + 1 := by simp
    rw [hlen2]
    have harith : buf.length + 1 - window_turns * 2
        + (buf.length + 1 - (buf.length + 1 - window_turns * 2) + rest.length
            - window_turns * 2)
        = buf.length + (m :: rest).length - window_turns * 2 := by
      simp only [List.length_cons]
      omega
    rw [show (buf ++ [m]) ++ rest = buf ++ m :: rest by simp, harith]

lemma lookup_updateSession (window_turns : Nat) (key : String) (message : Message) :
    ∀ sessions : List (String × List Message),
      (((updateSession window_turns key message sessions).lookup key).getD [])
        = appendToBuffer window_turns ((sessions.lookup key).getD []) message := by
  intro sessions
  induction sessions with
  | nil => simp [updateSession, List.lookup]
  | cons kv rest ih =>
    obtain ⟨k, msgs⟩ := kv
    by_cases hk : k = key
    · subst hk
      simp [updateSession, List.lookup]
    · have hbeq : (k == key) = false := by simpa using hk
      have hbeq' : (key == k) = false := by
        simpa using fun h : key = k => hk h.symm
      simp [updateSession, List.lookup, hbeq, hbeq', ih]

/-- Two concrete messages used in the windowing scenario. -/
def msgA : Message := { role := "user", content := .Text "a", timestamp := 0, token_count := none }

/-- The second concrete message of the windowing scenario. -/
def msgB : Message :=
  { role := "assistant", content := .Text "b", timestamp := 1, token_count := none }

/-- Claim C7: with `window_turns = N` the per-session buffer never holds
more than `2N` messages: a run of appends from an empty buffer leaves
exactly the most recent `min(len, 2N)` messages in order, so `2N + 2`
appends (N+1 turns) drop the oldest turn's two messages; `append` on
the memory updates exactly the named session's buffer this way. -/
theorem episodic_window_cap :
    (∀ (window_turns : Nat) (ms : List Message),
      ms.foldl (appendToBuffer window_turns) []
        = ms.drop (ms.length - window_turns * 2)) ∧
    (∀ (window_turns : Nat) (ms : List Message),
      (ms.foldl (appendToBuffer window_turns) []).length ≤ window_turns * 2) ∧
    (∀ (m : EpisodicMemory) (key : String) (message : Message),
      (m.append key message).buffer key
        = appendToBuffer m.window_turns (m.buffer key) message) ∧
    (∀ (window_turns : Nat) (ms : List Message),
      ms.length = window_turns * 2 + 2 →
      ms.foldl (appendToBuffer window_turns) [] = ms.drop 2) ∧
    [msgA, msgB, msgA, msgB].foldl (appendToBuffer 1) [] = [msgA, msgB] := by
  have hfold : ∀ (window_turns : Nat) (ms : List Message),
      ms.foldl (appendToBuffer window_turns) []
        = ms.drop (ms.length - window_turns * 2) := by
    intro window_turns ms
    simpa using foldl_appendToBuffer window_turns ms [] (by simp)
  refine ⟨hfold, ?_, ?_, ?_, ?_⟩
  · intro window_turns ms
    rw [hfold, List.length_drop]
    omega
  · intro m key message
    exact lookup_updateSession m.window_turns key message m.sessions
  · intro window_turns ms hlen
    rw [hfold, hlen]
    simp
  · rfl

/-! ## Admission token estimate — `src/agent/metering.rs:380-389` -/

/-- The per-message contribution in `estimate_input_tokens`: Rust
`content.len()` is the UTF-8 byte length of the string, zero when the
`content` field is absent or not a string. -/
def contentByteLen (msg : JsonValue) : Nat :=
  match (msg.get "content").bind JsonValue.asStr with
  | some s => s.utf8ByteSize
  | none => 0

/-- `estimate_input_tokens` (metering.rs:380-389): sum the content byte
counts, divide by 4, add 1. -/
def estimate_input_tokens (messages : List JsonValue) : Nat :=
  messages.foldl (fun chars msg => chars + contentByteLen msg) 0 / 4 + 1

/-- Modelled from the spec's words ("`(Σ content characters) ÷ 4 + 1`"):
the same formula over the character count of each content string. -/
def estimateTokensByChars (messages : List JsonValue) : Nat :=
  (messages.map fun msg =>
    match (msg.get "content").bind JsonValue.asStr with
    | some s => s.length
    | none => 0).sum / 4 + 1

/-- A message whose content is three two-byte characters: 3 characters
but 6 UTF-8 bytes. -/
def nonAsciiMessage : JsonValue :=
  .obj [("role", .str "user"), ("content", .str "ééé")]

/-- Claim C8 fails on the code: `estimate_input_tokens` sums Rust
`String::len`, the UTF-8 byte count, not the character count.  On a
message whose content is "ééé" (3 characters, 6 bytes) the code
computes 6 / 4 + 1 = 2 while the character formula gives
3 / 4 + 1 = 1. -/
theorem estimate_tokens_chars_counterexample :
    estimate_input_tokens [nonAsciiMessage] ≠ estimateTokensByChars [nonAsciiMessage] ∧
    estimate_input_tokens [nonAsciiMessage] = 2 ∧
    estimateTokensByChars [nonAsciiMessage] = 1 := by
  refine ⟨by decide, by decide, by decide⟩

lemma foldl_add_byteLen :
    ∀ (messages : List JsonValue) (acc : Nat),
      messages.foldl (fun chars msg => chars + contentByteLen msg) acc
        = acc + (messages.map contentByteLen).sum := by
  intro messages
  induction messages with
  | nil => intro acc; simp
  | cons msg rest ih =>
    intro acc
    rw [List.foldl_cons, ih]
    simp
    omega

/-- Claim C8 (amended): the admission token estimate equals the sum over
the messages of the UTF-8 byte length of each message's string
`content` field, divided by 4 (integer division), plus 1; messages
whose content is absent or not a string contribute zero bytes.  The
final conjunct is the code's own unit test (45 ASCII characters give
12). -/
theorem estimate_tokens_bytes :
    (∀ messages : List JsonValue,
      estimate_input_tokens messages = (messages.map contentByteLen).sum / 4 + 1) ∧
    (∀ (msg : JsonValue) (s : String),
      (msg.get "content").bind JsonValue.asStr = some s →
      contentByteLen msg = s.utf8ByteSize) ∧
    (∀ msg : JsonValue,
      (msg.get "content").bind JsonValue.asStr = none →
      contentByteLen msg = 0) ∧
    estimate_input_tokens [] = 1 ∧
    estimate_input_tokens
      [.obj [("role", .str "user"), ("content", .str "Hello, how are you?")],
       .obj [("role", .str "assistant"),
             ("content", .str "I'm doing well, thank you!")]] = 12 := by
  refine ⟨?_, ?_, ?_, by decide, by decide⟩
  · intro messages
    unfold estimate_input_tokens
    rw [foldl_add_byteLen messages 0, Nat.zero_add]
  · intro msg s h
    unfold contentByteLen
    rw [h]
  · intro msg h
    unfold contentByteLen
    rw [h]

/-! ## Webhook outbound-HTTP proxy — `src/gateway/server.rs:515-569` -/

/-- The three ways the webhook tail can treat a formatted payload that
names a proxy `url`: the host performs the outbound POST, or rejects
with an HTTP status and no POST, or (no `url` field) returns the
formatted payload directly. -/
inductive ProxyOutcome where
  | post (url : String) (body : JsonValue)
  | reject (status : Nat) (message : String)
  | direct

/-- The `url` field of the formatted payload
(`json.get("url").and_then(as_str)`, server.rs:518). -/
def jsonUrl (json : JsonValue) : Option String :=
  (json.get "url").bind JsonValue.asStr

/-- The 403 message (server.rs:559-566). -/
def proxyDeniedMessage (adapter_name : String) (url_host : Option String) : String :=
  "proxy denied: " ++ url_host.getD "unknown" ++ " not in allowed_hosts for adapter '"
    ++ adapter_name ++ "'"

/-- The proxy decision of `webhook_handler` (server.rs:515-569): when the
formatted payload has a `url`, parse its host (`url::Url::parse` and
`host_str` are the abstract `parseHost`), allow the POST only when
that host is in the plugin's allow list, and otherwise reject with
status 403; without a `url` the payload is returned directly. -/
def webhookProxyStep (parseHost : String → Option String) (allowed : List String)
    (adapter_name : String) (json : JsonValue) (response_text : String) : ProxyOutcome :=
  match jsonUrl json with
  | some proxy_url =>
    let url_host := parseHost proxy_url
    let is_allowed :=
      match url_host with
      | some host => allowed.any fun h => h == host
      | none => false
    if is_allowed then
      .post proxy_url ((json.get "body").getD (.obj [("text", .str response_text)]))
    else
      .reject 403 (proxyDeniedMessage adapter_name url_host)
  | none => .direct

lemma mem_allowed_hosts (caps : List Capability) (host : String) :
    host ∈ allowed_hosts caps ↔ Capability.Http host ∈ caps := by
  unfold allowed_hosts
  rw [List.mem_filterMap]
  constructor
  · rintro ⟨c, hc, hmatch⟩
    match c with
    | .Http h2 =>
      simp only [Option.some.injEq] at hmatch
      subst hmatch
      exact hc
    | .Store n => simp at hmatch
    | .HostFunction n => simp at hmatch
  · intro h
    exact ⟨.Http host, h, rfl⟩

/-- Scenario capabilities for the webhook claim. -/
def webhookCaps : List Capability := [.Http "api.telegram.org", .Store "sessions"]

/-- A host parser stub for the webhook scenario. -/
def webhookParseHost (url : String) : Option String :=
  if url = "https://api.telegram.org/sendMessage" then some "api.telegram.org"
  else if url = "https://evil.example/x" then some "evil.example"
  else none

/-- Claim C6: the host performs the outbound POST only when the proxy
URL's host is in the plugin's HTTP allow list (the `Http` projection
of its capabilities); an unlisted or unparseable host is rejected
with status 403 and no POST.  The concrete conjuncts run an allowed
POST, a denied host, and an unparseable URL. -/
theorem webhook_proxy_allowlist :
    (∀ (parseHost : String → Option String) (caps : List Capability)
        (adapter_name : String) (json : JsonValue) (response_text : String)
        (u : String) (b : JsonValue),
      webhookProxyStep parseHost (allowed_hosts caps) adapter_name json response_text
          = .post u b →
      jsonUrl json = some u ∧
        ∃ host, parseHost u = some host ∧ Capability.Http host ∈ caps) ∧
    (∀ (parseHost : String → Option String) (caps : List Capability)
        (adapter_name : String) (json : JsonValue) (response_text : String) (u : String),
      jsonUrl json = some u →
      (∀ host, parseHost u = some host → Capability.Http host ∉ caps) →
      webhookProxyStep parseHost (allowed_hosts caps) adapter_name json response_text
        = .reject 403 (proxyDeniedMessage adapter_name (parseHost u))) ∧
    (∀ (caps : List Capability) (host : String),
      host ∈ allowed_hosts caps ↔ Capability.Http host ∈ caps) ∧
    webhookProxyStep webhookParseHost (allowed_hosts webhookCaps) "telegram"
      (.obj [("url", .str "https://api.telegram.org/sendMessage")]) "hi"
      = .post "https://api.telegram.org/sendMessage" (.obj [("text", .str "hi")]) ∧
    webhookProxyStep webhookParseHost (allowed_hosts webhookCaps) "telegram"
      (.obj [("url", .str "https://evil.example/x")]) "hi"
      = .reject 403
          "proxy denied: evil.example not in allowed_hosts for adapter 'telegram'" ∧
    webhookProxyStep webhookParseHost (allowed_hosts webhookCaps) "telegram"
      (.obj [("url", .str "not a url")]) "hi"
      = .reject 403
          "proxy denied: unknown not in allowed_hosts for adapter 'telegram'" := by
  refine ⟨?_, ?_, mem_allowed_hosts, rfl, rfl, rfl⟩
  · intro parseHost caps adapter_name json response_text u b hstep
    unfold webhookProxyStep at hstep
    rcases hurl : jsonUrl json with _ | proxy_url
    · rw [hurl] at hstep
      exact absurd hstep (by simp)
    · rw [hurl] at hstep
      simp only at hstep
      rcases hhost : parseHost proxy_url with _ | host
      · rw [hhost] at hstep
        simp at hstep
      · rw [hhost] at hstep
        by_cases hall : (allowed_hosts caps).any fun h => h == host
        · rw [if_pos hall] at hstep
          simp only [ProxyOutcome.post.injEq] at hstep
          obtain ⟨h1, h2⟩ := hstep
          subst h1
          refine ⟨rfl, host, hhost, ?_⟩
          rw [← mem_allowed_hosts]
          simpa [List.any_eq_true] using hall
        · rw [if_neg hall] at hstep
          simp at hstep
  · intro parseHost caps adapter_name json response_text u hurl hforbid
    unfold webhookProxyStep
    rw [hurl]
    simp only
    rcases hhost : parseHost u with _ | host
    · rw [if_neg (by simp)]
    · have : Capability.Http host ∉ caps := hforbid host hhost
      rw [← mem_allowed_hosts] at this
      rw [if_neg (by simpa [List.any_eq_true] using this)]

/-! ## Semantic memory — `src/memory/semantic.rs` -/

/-- `MemoryEntity` (semantic.rs:8-20); chrono timestamps are `Nat`
instants and the `f32` confidence, carried but never computed with, is
a `Rat`. -/
structure MemoryEntity where
  id : String
  entity_type : String
  subject : String
  predicate : String
  object : String
  session_key : String
  learned_at : Nat
  superseded_at : Option Nat
  superseded_by : Option String
  confidence : Rat
deriving DecidableEq

/-- `SemanticMemory` (semantic.rs:23-26); the subject-indexed `HashMap`
becomes an association list. -/
structure SemanticMemory where
  entities : List (String × List MemoryEntity)
  enabled : Bool

/-- `entities.get(subject)` (semantic.rs:61, 140). -/
def lookupEntities (key : String) : List (String × List MemoryEntity) →
    Option (List MemoryEntity)
  | [] => none
  | (k, es) :: rest => if k == key then some es else lookupEntities key rest

/-- The mutation `supersede` applies to the found entity
(semantic.rs:128-130). -/
def markSuperseded (now : Nat) (new_id : String) (e : MemoryEntity) : MemoryEntity :=
  { e with superseded_at := some now, superseded_by := some new_id }

/-- The inner loop of `SemanticMemory::supersede` over one subject's
entity list (semantic.rs:127-134): update the first entity whose id is
`old_id`, or report that none was found. -/
def supersedeInList (now : Nat) (old_id new_id : String) :
    List MemoryEntity → Option (List MemoryEntity)
  | [] => none
  | e :: es =>
    if e.id == old_id then some (markSuperseded now new_id e :: es)
    else (supersedeInList now old_id new_id es).map fun es' => e :: es'

/-- `SemanticMemory::supersede` (semantic.rs:124-136): walk the buckets,
update the first entity with the old id, and return (the Rust `return`
stops at the first hit). -/
def supersedeEntities (now : Nat) (old_id new_id : String) :
    List (String × List MemoryEntity) → List (String × List MemoryEntity)
  | [] => []
  | (k, es) :: rest =>
    match supersedeInList now old_id new_id es with
    | some es' => (k, es') :: rest
    | none => (k, es) :: supersedeEntities now old_id new_id rest

/-- `entities.entry(subject).or_default().push(entity)` (semantic.rs:56). -/
def pushEntity (e : MemoryEntity) : List (String × List MemoryEntity) →
    List (String × List MemoryEntity)
  | [] => [(e.subject, [e])]
  | (k, es) :: rest =>
    if k == e.subject then (k, es ++ [e]) :: rest
    else (k, es) :: pushEntity e rest

/-- `SemanticMemory::find_active` (semantic.rs:139-146). -/
def find_active (m : SemanticMemory) (subject predicate : String) : Option String :=
  (lookupEntities subject m.entities).bind fun es =>
    (es.find? fun e => e.predicate == predicate && e.superseded_at.isNone).map fun e => e.id

/-- `SemanticMemory::store` (semantic.rs:43-57): a no-op when disabled;
otherwise supersede the active entity for the same subject+predicate,
if any, then push the new entity under its subject. -/
def SemanticMemory.store (now : Nat) (m : SemanticMemory) (entity : MemoryEntity) :
    SemanticMemory :=
  if !m.enabled then m
  else
    match find_active m entity.subject entity.predicate with
    | some old_id =>
      { m with entities := pushEntity entity (supersedeEntities now old_id entity.id m.entities) }
    | none => { m with entities := pushEntity entity m.entities }

/-- `SemanticMemory::query` (semantic.rs:60-70): the active entities of
the subject's bucket with the given predicate. -/
def SemanticMemory.query (m : SemanticMemory) (subject predicate : String) :
    List MemoryEntity :=
  ((lookupEntities subject m.entities).map fun es =>
    es.filter fun e => e.predicate == predicate && e.superseded_at.isNone).getD []

/-- All entities of the store, bucket by bucket. -/
def entitiesOf : List (String × List MemoryEntity) → List MemoryEntity
  | [] => []
  | (_, es) :: rest => es ++ entitiesOf rest

/-- Whether an entity is an active fact for the given subject and
predicate. -/
def isActiveFor (s p : String) (e : MemoryEntity) : Bool :=
  e.subject == s && e.predicate == p && e.superseded_at.isNone

/-- How many active entities the store holds for a subject+predicate. -/
def activeCount (m : SemanticMemory) (s p : String) : Nat :=
  (entitiesOf m.entities).countP (isActiveFor s p)

/-- The well-formedness invariant maintained by `store`: bucket keys are
distinct, every entity sits in its subject's bucket, entity ids are
distinct, and at most one entity per (subject, predicate) is active. -/
def SemanticWF (m : SemanticMemory) : Prop :=
  (m.entities.map Prod.fst).Nodup ∧
  (∀ kv ∈ m.entities, ∀ e ∈ kv.2, e.subject = kv.1) ∧
  ((entitiesOf m.entities).map (fun e => e.id)).Nodup ∧
  (∀ s p, activeCount m s p ≤ 1)

lemma isActiveFor_iff (s p : String) (e : MemoryEntity) :
    isActiveFor s p e = true ↔ e.subject = s ∧ e.predicate = p ∧ e.superseded_at = none := by
  simp [isActiveFor, Bool.and_eq_true, Option.isNone_iff_eq_none, and_assoc]

lemma mem_entitiesOf (x : MemoryEntity) :
    ∀ l : List (String × List MemoryEntity), x ∈ entitiesOf l ↔ ∃ kv ∈ l, x ∈ kv.2 := by
  intro l
  induction l with
  | nil => simp [entitiesOf]
  | cons kv rest ih =>
    obtain ⟨k, es⟩ := kv
    simp only [entitiesOf, List.mem_append, ih, List.mem_cons]
    constructor
    · rintro (hx | ⟨kv0, hkv0, hxkv0⟩)
      · exact ⟨(k, es), Or.inl rfl, hx⟩
      · exact ⟨kv0, Or.inr hkv0, hxkv0⟩
    · rintro ⟨kv0, hkv0 | hkv0, hxkv0⟩
      · subst hkv0; exact Or.inl hxkv0
      · exact Or.inr ⟨kv0, hkv0, hxkv0⟩

lemma lookupEntities_mem (key : String) :
    ∀ (l : List (String × List MemoryEntity)) (es : List MemoryEntity),
      lookupEntities key l = some es → (key, es) ∈ l := by
  intro l
  induction l with
  | nil => intro es h; simp [lookupEntities] at h
  | cons kv rest ih =>
    obtain ⟨k, es0⟩ := kv
    intro es h
    by_cases hk : k == key
    · rw [lookupEntities, if_pos hk] at h
      simp only [Option.some.injEq] at h
      subst h
      have : k = key := by simpa using hk
      subst this
      exact List.mem_cons_self _ _
    · rw [lookupEntities, if_neg hk] at h
      exact List.mem_cons_of_mem _ (ih es h)

lemma lookupEntities_none (key : String) :
    ∀ l : List (String × List MemoryEntity),
      lookupEntities key l = none → ∀ kv ∈ l, kv.1 ≠ key := by
  intro l
  induction l with
  | nil => intro _ kv h; simp at h
  | cons kv0 rest ih =>
    obtain ⟨k, es⟩ := kv0
    intro h kv hkv
    by_cases hk : k == key
    · rw [lookupEntities, if_pos hk] at h
      exact absurd h (by simp)
    · rw [lookupEntities, if_neg hk] at h
      rcases List.mem_cons.mp hkv with hkv | hkv
      · subst hkv
        simpa using hk
      · exact ih h kv hkv

lemma lookupEntities_unique (key : String) :
    ∀ (l : List (String × List MemoryEntity)) (es : List MemoryEntity),
      (l.map Prod.fst).Nodup → lookupEntities key l = some es →
      ∀ kv ∈ l, kv.1 = key → kv = (key, es) := by
  intro l
  induction l with
  | nil => intro es _ h; simp [lookupEntities] at h
  | cons kv0 rest ih =>
    obtain ⟨k, es0⟩ := kv0
    intro es hnodup h kv hkv hkey
    have hnodup2 : k ∉ List.map Prod.fst rest ∧ (List.map Prod.fst rest).Nodup := by
      rw [List.map_cons] at hnodup
      exact List.nodup_cons.mp hnodup
    by_cases hk : k == key
    · rw [lookupEntities, if_pos hk] at h
      simp only [Option.some.injEq] at h
      subst h
      have hkeq : k = key := by simpa using hk
      rcases List.mem_cons.mp hkv with hkv | hkv
      · subst hkv; simp [hkeq]
      · exfalso
        apply hnodup2.1
        rw [hkeq, ← hkey]
        exact List.mem_map_of_mem Prod.fst hkv
    · rw [lookupEntities, if_neg hk] at h
      rcases List.mem_cons.mp hkv with hkv | hkv
      · exfalso
        subst hkv
        simp only at hkey
        exact absurd (by simpa using hkey) (by simpa using hk)
      · exact ih es hnodup2.2 h kv hkv hkey

lemma entitiesOf_pushEntity (e : MemoryEntity) :
    ∀ l : List (String × List MemoryEntity),
      List.Perm (entitiesOf (pushEntity e l)) (e :: entitiesOf l) := by
  intro l
  induction l with
  | nil => simp [pushEntity, entitiesOf]
  | cons kv rest ih =>
    obtain ⟨k, es⟩ := kv
    by_cases hk : k == e.subject
    · rw [pushEntity, if_pos hk]
      show List.Perm ((es ++ [e]) ++ entitiesOf rest) (e :: (es ++ entitiesOf rest))
      rw [show (es ++ [e]) ++ entitiesOf rest = es ++ e :: entitiesOf rest by simp]
      exact List.perm_middle
    · rw [pushEntity, if_neg hk]
      show List.Perm (es ++ entitiesOf (pushEntity e rest)) (e :: (es ++ entitiesOf rest))
      exact (List.Perm.append_left es ih).trans List.perm_middle

lemma pushEntity_countP (e : MemoryEntity) (l : List (String × List MemoryEntity))
    (q : MemoryEntity → Bool) :
    (entitiesOf (pushEntity e l)).countP q
      = (entitiesOf l).countP q + (if q e then 1 else 0) := by
  rw [List.Perm.countP_eq q (entitiesOf_pushEntity e l)]
  rw [List.countP_cons]

lemma pushEntity_keys_mem (e : MemoryEntity) (x : String) :
    ∀ l : List (String × List MemoryEntity),
      x ∈ (pushEntity e l).map Prod.fst → x ∈ l.map Prod.fst ∨ x = e.subject := by
  intro l
  induction l with
  | nil => intro h; simp [pushEntity] at h; exact Or.inr h
  | cons kv rest ih =>
    obtain ⟨k, es⟩ := kv
    intro h
    by_cases hk : k == e.subject
    · rw [pushEntity, if_pos hk] at h
      simp only [List.map_cons, List.mem_cons] at h
      rcases h with h | h
      · exact Or.inl (by simp [h])
      · exact Or.inl (by simp [h])
    · rw [pushEntity, if_neg hk] at h
      simp only [List.map_cons, List.mem_cons] at h
      rcases h with h | h
      · exact Or.inl (by simp [h])
      · rcases ih h with h | h
        · exact Or.inl (by simp [h])
        · exact Or.inr h

lemma pushEntity_keys_nodup (e : MemoryEntity) :
    ∀ l : List (String × List MemoryEntity),
      (l.map Prod.fst).Nodup → ((pushEntity e l).map Prod.fst).Nodup := by
  intro l
  induction l with
  | nil => intro _; simp [pushEntity]
  | cons kv rest ih =>
    obtain ⟨k, es⟩ := kv
    intro h
    rw [List.map_cons] at h
    obtain ⟨hnotin, hrest⟩ := List.nodup_cons.mp h
    by_cases hk : k == e.subject
    · rw [pushEntity, if_pos hk, List.map_cons]
      exact List.nodup_cons.mpr ⟨hnotin, hrest⟩
    · rw [pushEntity, if_neg hk, List.map_cons]
      refine List.nodup_cons.mpr ⟨?_, ih hrest⟩
      intro hmem
      rcases pushEntity_keys_mem e k rest hmem with h2 | h2
      · exact hnotin h2
      · exact absurd h2 (by simpa using hk)

lemma pushEntity_subjects (e : MemoryEntity) :
    ∀ l : List (String × List MemoryEntity),
      (∀ kv ∈ l, ∀ x ∈ kv.2, x.subject = kv.1) →
      ∀ kv ∈ pushEntity e l, ∀ x ∈ kv.2, x.subject = kv.1 := by
  intro l
  induction l with
  | nil =>
    intro _ kv hkv x hx
    simp only [pushEntity, List.mem_singleton] at hkv
    subst hkv
    simp only [List.mem_singleton] at hx
    subst hx
    rfl
  | cons kv0 rest ih =>
    obtain ⟨k, es⟩ := kv0
    intro h kv hkv x hx
    by_cases hk : k == e.subject
    · rw [pushEntity, if_pos hk] at hkv
      rcases List.mem_cons.mp hkv with hkv | hkv
      · subst hkv
        simp only [List.mem_append, List.mem_singleton] at hx
        rcases hx with hx | hx
        · exact h (k, es) (List.mem_cons_self _ _) x hx
        · subst hx
          simpa using (eq_of_beq hk).symm
      · exact h kv (List.mem_cons_of_mem _ hkv) x hx
    · rw [pushEntity, if_neg hk] at hkv
      rcases List.mem_cons.mp hkv with hkv | hkv
      · subst hkv
        exact h (k, es) (List.mem_cons_self _ _) x hx
      · exact ih (fun kv2 hkv2 => h kv2 (List.mem_cons_of_mem _ hkv2)) kv hkv x hx

lemma pushEntity_ids_nodup (e : MemoryEntity) (l : List (String × List MemoryEntity))
    (hn : ((entitiesOf l).map (fun x => x.id)).Nodup)
    (hfresh : e.id ∉ (entitiesOf l).map (fun x => x.id)) :
    ((entitiesOf (pushEntity e l)).map (fun x => x.id)).Nodup := by
  have hperm := (entitiesOf_pushEntity e l).map (fun x => x.id)
  rw [hperm.nodup_iff]
  rw [List.map_cons]
  exact List.nodup_cons.mpr ⟨hfresh, hn⟩

lemma supersedeInList_none (now : Nat) (old_id new_id : String) :
    ∀ es : List MemoryEntity,
      supersedeInList now old_id new_id es = none → ∀ x ∈ es, x.id ≠ old_id := by
  intro es
  induction es with
  | nil => intro _ x hx; simp at hx
  | cons y ys ih =>
    intro h x hx
    by_cases hy : y.id == old_id
    · rw [supersedeInList, if_pos hy] at h
      exact absurd h (by simp)
    · rw [supersedeInList, if_neg hy] at h
      rcases hr : supersedeInList now old_id new_id ys with _ | ys'
      · rcases List.mem_cons.mp hx with hx | hx
        · subst hx; simpa using hy
        · exact ih hr x hx
      · rw [hr] at h
        exact absurd h (by simp)

lemma supersedeInList_some (now : Nat) (old_id new_id : String) :
    ∀ (es es' : List MemoryEntity), supersedeInList now old_id new_id es = some es' →
      ∃ pre f post, es = pre ++ f :: post ∧ f.id = old_id ∧
        es' = pre ++ markSuperseded now new_id f :: post := by
  intro es
  induction es with
  | nil => intro es' h; simp [supersedeInList] at h
  | cons y ys ih =>
    intro es' h
    by_cases hy : y.id == old_id
    · rw [supersedeInList, if_pos hy] at h
      simp only [Option.some.injEq] at h
      exact ⟨[], y, ys, by simp, by simpa using hy, by rw [← h]; simp⟩
    · rw [supersedeInList, if_neg hy] at h
      rcases hr : supersedeInList now old_id new_id ys with _ | ys'
      · rw [hr] at h; exact absurd h (by simp)
      · rw [hr] at h
        simp only [Option.map, Option.some.injEq] at h
        obtain ⟨pre, f, post, h1, h2, h3⟩ := ih ys' hr
        exact ⟨y :: pre, f, post, by rw [h1]; simp, h2, by rw [← h, h3]; simp⟩

lemma supersedeEntities_keys (now : Nat) (old_id new_id : String) :
    ∀ l : List (String × List MemoryEntity),
      (supersedeEntities now old_id new_id l).map Prod.fst = l.map Prod.fst := by
  intro l
  induction l with
  | nil => rfl
  | cons kv rest ih =>
    obtain ⟨k, es⟩ := kv
    rcases hr : supersedeInList now old_id new_id es with _ | es'
    · rw [supersedeEntities, hr, List.map_cons, List.map_cons, ih]
    · rw [supersedeEntities, hr]
      rfl

lemma supersedeEntities_cases (now : Nat) (old_id new_id : String) :
    ∀ l : List (String × List MemoryEntity),
      (supersedeEntities now old_id new_id l = l ∧ ∀ x ∈ entitiesOf l, x.id ≠ old_id)
      ∨ ∃ A f B, entitiesOf l = A ++ f :: B ∧ f.id = old_id ∧
          entitiesOf (supersedeEntities now old_id new_id l)
            = A ++ markSuperseded now new_id f :: B := by
  intro l
  induction l with
  | nil =>
    left
    exact ⟨rfl, by intro x hx; simp [entitiesOf] at hx⟩
  | cons kv rest ih =>
    obtain ⟨k, es⟩ := kv
    rcases hr : supersedeInList now old_id new_id es with _ | es'
    · have hnone := supersedeInList_none now old_id new_id es hr
      rcases ih with ⟨heq, hall⟩ | ⟨A, f, B, h1, h2, h3⟩
      · left
        constructor
        · rw [supersedeEntities, hr, heq]
        · intro x hx
          rcases List.mem_append.mp (by simpa [entitiesOf] using hx) with hx | hx
          · exact hnone x hx
          · exact hall x hx
      · right
        refine ⟨es ++ A, f, B, ?_, h2, ?_⟩
        · show es ++ entitiesOf rest = (es ++ A) ++ f :: B
          rw [h1, List.append_assoc]
        · rw [supersedeEntities, hr]
          show es ++ entitiesOf (supersedeEntities now old_id new_id rest)
            = (es ++ A) ++ markSuperseded now new_id f :: B
          rw [h3, List.append_assoc]
    · right
      obtain ⟨pre, f, post, h1, h2, h3⟩ := supersedeInList_some now old_id new_id es es' hr
      refine ⟨pre, f, post ++ entitiesOf rest, ?_, h2, ?_⟩
      · show es ++ entitiesOf rest = pre ++ f :: (post ++ entitiesOf rest)
        rw [h1]
        simp
      · rw [supersedeEntities, hr]
        show es' ++ entitiesOf rest = pre ++ markSuperseded now new_id f :: (post ++ entitiesOf rest)
        rw [h3]
        simp

lemma supersedeEntities_buckets (now : Nat) (old_id new_id : String) :
    ∀ (l : List (String × List MemoryEntity)) (kv' : String × List MemoryEntity),
      kv' ∈ supersedeEntities now old_id new_id l →
      ∃ es, (kv'.1, es) ∈ l ∧
        ∀ x ∈ kv'.2, x ∈ es ∨ ∃ f ∈ es, x = markSuperseded now new_id f := by
  intro l
  induction l with
  | nil => intro kv' h; simp [supersedeEntities] at h
  | cons kv rest ih =>
    obtain ⟨k, es⟩ := kv
    intro kv' h
    rcases hr : supersedeInList now old_id new_id es with _ | es'
    · rw [supersedeEntities, hr] at h
      rcases List.mem_cons.mp h with h | h
      · subst h
        exact ⟨es, List.mem_cons_self _ _, fun x hx => Or.inl hx⟩
      · obtain ⟨es0, hmem, himpl⟩ := ih kv' h
        exact ⟨es0, List.mem_cons_of_mem _ hmem, himpl⟩
    · rw [supersedeEntities, hr] at h
      rcases List.mem_cons.mp h with h | h
      · subst h
        obtain ⟨pre, f, post, h1, h2, h3⟩ := supersedeInList_some now old_id new_id es es' hr
        refine ⟨es, List.mem_cons_self _ _, ?_⟩
        intro x hx
        simp only at hx
        rw [h3] at hx
        rcases List.mem_append.mp hx with hx | hx
        · exact Or.inl (by rw [h1]; exact List.mem_append.mpr (Or.inl hx))
        · rcases List.mem_cons.mp hx with hx | hx
          · exact Or.inr ⟨f, by rw [h1]; simp, hx⟩
          · exact Or.inl (by rw [h1]; simp [hx])
      · refine ⟨kv'.2, ?_, fun x hx => Or.inl hx⟩
        exact List.mem_cons_of_mem _ (by simpa using h)

lemma supersedeEntities_ids (now : Nat) (old_id new_id : String)
    (l : List (String × List MemoryEntity)) :
    (entitiesOf (supersedeEntities now old_id new_id l)).map (fun x => x.id)
      = (entitiesOf l).map (fun x => x.id) := by
  rcases supersedeEntities_cases now old_id new_id l with ⟨heq, _⟩ | ⟨A, f, B, h1, h2, h3⟩
  · rw [heq]
  · rw [h1, h3]
    simp [markSuperseded]

lemma find_active_some {m : SemanticMemory} {s p old : String}
    (h : find_active m s p = some old) :
    ∃ es f, lookupEntities s m.entities = some es ∧ f ∈ es ∧ f.id = old ∧
      f.predicate = p ∧ f.superseded_at = none := by
  unfold find_active at h
  rcases hl : lookupEntities s m.entities with _ | es
  · rw [hl] at h; simp at h
  · rw [hl] at h
    simp only [Option.bind] at h
    rcases hf : es.find? (fun e => e.predicate == p && e.superseded_at.isNone) with _ | f
    · rw [hf] at h; simp at h
    · rw [hf] at h
      simp only [Option.map, Option.some.injEq] at h
      have hmem := List.mem_of_find?_eq_some hf
      have hpred := List.find?_some hf
      rw [Bool.and_eq_true] at hpred
      exact ⟨es, f, rfl, hmem, h, by simpa using hpred.1,
        by simpa [Option.isNone_iff_eq_none] using hpred.2⟩

lemma activeCount_zero_of_find_active_none (m : SemanticMemory) (s p : String)
    (hkeys : (m.entities.map Prod.fst).Nodup)
    (hsub : ∀ kv ∈ m.entities, ∀ e ∈ kv.2, e.subject = kv.1)
    (hfa : find_active m s p = none) :
    activeCount m s p = 0 := by
  unfold activeCount
  rw [List.countP_eq_zero]
  intro x hx hq
  rw [isActiveFor_iff] at hq
  obtain ⟨hsubj, hpred, hact⟩ := hq
  obtain ⟨kv, hkv, hxkv⟩ := (mem_entitiesOf x m.entities).mp hx
  have hkv1 : kv.1 = s := by rw [← hsub kv hkv x hxkv, hsubj]
  unfold find_active at hfa
  rcases hl : lookupEntities s m.entities with _ | es
  · exact lookupEntities_none s m.entities hl kv hkv hkv1
  · rw [hl] at hfa
    simp only [Option.bind] at hfa
    rcases hf : es.find? (fun e => e.predicate == p && e.superseded_at.isNone) with _ | f
    · have hkveq := lookupEntities_unique s m.entities es hkeys hl kv hkv hkv1
      have hxes : x ∈ es := by rw [hkveq] at hxkv; exact hxkv
      apply List.find?_eq_none.mp hf x hxes
      simp [hpred, hact]
    · rw [hf] at hfa
      simp at hfa

/-- The first fact of scenario S2: the user lives in NYC. -/
def entityNYC : MemoryEntity :=
  { id := "id1", entity_type := "fact", subject := "user", predicate := "location",
    object := "NYC", session_key := "s", learned_at := 0, superseded_at := none,
    superseded_by := none, confidence := 1 }

/-- The second fact of scenario S2: the user moved to LA. -/
def entityLA : MemoryEntity :=
  { id := "id2", entity_type := "fact", subject := "user", predicate := "location",
    object := "LA", session_key := "s", learned_at := 1, superseded_at := none,
    superseded_by := none, confidence := 1 }

/-- The semantic store after storing NYC at time 0 then LA at time 1. -/
def scenarioMemory : SemanticMemory :=
  SemanticMemory.store 1
    (SemanticMemory.store 0 { entities := [], enabled := true } entityNYC) entityLA

/-- Claim C4: `store` preserves the invariant that at most one entity per
(subject, predicate) is active, superseding the previous active entity
with the current timestamp and the new entity's id — provided the new
entity's id is fresh, as the UUIDs the code generates are.  Scenario
S2: after storing (user, location, NYC) then (user, location, LA),
`query` returns only the LA entity and the NYC entity carries
`superseded_at = 1` and `superseded_by = "id2"`; a disabled store is a
no-op. -/
theorem semantic_supersession :
    (∀ (now : Nat) (m : SemanticMemory) (e : MemoryEntity),
      SemanticWF m → e.id ∉ (entitiesOf m.entities).map (fun x => x.id) →
      SemanticWF (m.store now e)) ∧
    scenarioMemory.query "user" "location" = [entityLA] ∧
    (entitiesOf scenarioMemory.entities).filter (fun x => x.id == "id1")
      = [{ entityNYC with superseded_at := some 1, superseded_by := some "id2" }] ∧
    activeCount scenarioMemory "user" "location" = 1 ∧
    (SemanticMemory.store 0 { entities := [], enabled := false } entityNYC).entities = [] := by
  refine ⟨?_, by decide, by decide, by decide, by decide⟩
  intro now m e hwf hfresh
  obtain ⟨hkeys, hsub, hids, hactive⟩ := hwf
  unfold SemanticMemory.store
  by_cases hen : m.enabled
  · rw [if_neg (by simp [hen])]
    rcases hfa : find_active m e.subject e.predicate with _ | old_id
    · show SemanticWF { m with entities := pushEntity e m.entities }
      refine ⟨pushEntity_keys_nodup e m.entities hkeys,
              pushEntity_subjects e m.entities hsub,
              pushEntity_ids_nodup e m.entities hids hfresh, ?_⟩
      intro s p
      show (entitiesOf (pushEntity e m.entities)).countP (isActiveFor s p) ≤ 1
      rw [pushEntity_countP]
      by_cases hq : isActiveFor s p e = true
      · obtain ⟨h1e, h2e, _⟩ := (isActiveFor_iff s p e).mp hq
        have h0 : (entitiesOf m.entities).countP (isActiveFor s p) = 0 := by
          rw [← h1e, ← h2e]
          exact activeCount_zero_of_find_active_none m e.subject e.predicate hkeys hsub hfa
        rw [h0, if_pos hq]
      · rw [if_neg hq]
        have hbound : (entitiesOf m.entities).countP (isActiveFor s p) ≤ 1 := hactive s p
        omega
    · show SemanticWF
        { m with entities := pushEntity e (supersedeEntities now old_id e.id m.entities) }
      obtain ⟨es, f, hl, hfes, hfid, hfpred, hfact⟩ := find_active_some hfa
      have hfsub : f.subject = e.subject :=
        hsub (e.subject, es) (lookupEntities_mem e.subject m.entities es hl) f hfes
      have hfin : f ∈ entitiesOf m.entities :=
        (mem_entitiesOf f m.entities).mpr
          ⟨(e.subject, es), lookupEntities_mem e.subject m.entities es hl, hfes⟩
      have hkeys' : ((supersedeEntities now old_id e.id m.entities).map Prod.fst).Nodup := by
        rw [supersedeEntities_keys]; exact hkeys
      have hids' : ((entitiesOf (supersedeEntities now old_id e.id m.entities)).map
          (fun x => x.id)).Nodup := by
        rw [supersedeEntities_ids]; exact hids
      have hfresh' : e.id ∉ (entitiesOf (supersedeEntities now old_id e.id m.entities)).map
          (fun x => x.id) := by
        rw [supersedeEntities_ids]; exact hfresh
      have hsub' : ∀ kv ∈ supersedeEntities now old_id e.id m.entities,
          ∀ x ∈ kv.2, x.subject = kv.1 := by
        intro kv hkv x hx
        obtain ⟨es0, hmem, himpl⟩ :=
          supersedeEntities_buckets now old_id e.id m.entities kv hkv
        rcases himpl x hx with hx0 | ⟨f0, hf0, hx0⟩
        · exact hsub (kv.1, es0) hmem x hx0
        · rw [hx0]
          exact hsub (kv.1, es0) hmem f0 hf0
      refine ⟨pushEntity_keys_nodup e _ hkeys', pushEntity_subjects e _ hsub',
              pushEntity_ids_nodup e _ hids' hfresh', ?_⟩
      intro s p
      show (entitiesOf (pushEntity e (supersedeEntities now old_id e.id m.entities))).countP
          (isActiveFor s p) ≤ 1
      rw [pushEntity_countP]
      rcases supersedeEntities_cases now old_id e.id m.entities with
        ⟨heq, hnone⟩ | ⟨A, g, B, h1, h2, h3⟩
      · exact absurd hfid (hnone f hfin)
      · have hgin : g ∈ entitiesOf m.entities := by rw [h1]; simp
        have hgf : g = f := by
          have hinj := List.inj_on_of_nodup_map hids
          exact hinj hgin hfin (by rw [h2, hfid])
        subst hgf
        have hmark : isActiveFor s p (markSuperseded now e.id g) = false := by
          simp [isActiveFor, markSuperseded]
        have eqA : (entitiesOf m.entities).countP (isActiveFor s p)
            = A.countP (isActiveFor s p) + (B.countP (isActiveFor s p)
              + (if isActiveFor s p g then 1 else 0)) := by
          rw [h1, List.countP_append, List.countP_cons]
        have eqB : (entitiesOf (supersedeEntities now old_id e.id m.entities)).countP
            (isActiveFor s p)
            = A.countP (isActiveFor s p) + B.countP (isActiveFor s p) := by
          rw [h3, List.countP_append, List.countP_cons, hmark]
          simp
        have hbound : (entitiesOf m.entities).countP (isActiveFor s p) ≤ 1 := hactive s p
        rw [eqB]
        by_cases hq : isActiveFor s p e = true
        · obtain ⟨h1e, h2e, _⟩ := (isActiveFor_iff s p e).mp hq
          have hgq : isActiveFor s p g = true := by
            rw [isActiveFor_iff]
            exact ⟨by rw [hfsub, h1e], by rw [hfpred, h2e], hfact⟩
          rw [if_pos hq]
          rw [if_pos hgq] at eqA
          omega
        · rw [if_neg hq]
          by_cases hgq : isActiveFor s p g = true
          · rw [if_pos hgq] at eqA
            omega
          · rw [if_neg hgq] at eqA
            omega
  · rw [if_pos (by simp [hen])]
    exact ⟨hkeys, hsub, hids, hactive⟩
